import Mathlib

/-!
# Verification of the evidence-link validator

A shallow embedding of `scripts/validate-evidence-links.py` (the link-health
probing engine of the `agnix` repository) together with proofs of the
specification claims about it.

Modelling conventions:

* Python strings are modelled as `String` / `List Char`; byte strings as
  `List Nat`.
* The Python regular expressions used by the script (`TITLE_RE`, `TAG_RE`,
  `WHITESPACE_RE`, `NOT_FOUND_H1_RE`, the `charset=` search) are compiled into
  deterministic character scanners.  Each scanner is justified next to its
  definition: for these particular patterns the backtracking search of
  `re.search` / `re.sub` collapses to a deterministic left-to-right scan.
* `re.IGNORECASE` is modelled by lowering the scanned text with ASCII case
  folding (`Char.toLower`); `\s` is modelled by the ASCII whitespace class
  `[ \t\n\r\v\f]`.  (Unicode-only case pairs and exotic Unicode whitespace
  are outside the model.)
* Network traffic is an oracle: a function from request method to an abstract
  response (`NetResp`); the codec registry used by `bytes.decode` is an oracle
  from encoding name to an optional total decoder.  Effectful functions also
  return traces (list of issued request methods, list of sleeps) so that
  "exactly one physical request" style claims are statable.
-/

/-- The ASCII part of Python's regex class `\s`: space, tab, newline,
carriage return, vertical tab, form feed. -/
def wsChar (c : Char) : Bool :=
  c = ' ' || c = '\t' || c = '\n' || c = '\r' || c = Char.ofNat 11 || c = Char.ofNat 12

/-- First occurrence of the literal pattern `pat` in `l`: returns the part
strictly before the occurrence and the part strictly after it.  This is
`re.search` for a literal pattern (leftmost match). -/
def splitFirst (pat : List Char) : List Char → Option (List Char × List Char)
  | [] => if pat.isEmpty then some ([], []) else none
  | c :: rest =>
    if List.isPrefixOf pat (c :: rest) then some ([], (c :: rest).drop pat.length)
    else
      match splitFirst pat rest with
      | some (pre, post) => some (c :: pre, post)
      | none => none

/-- Consume the literal `pat` at the head of `l`, returning the remainder. -/
def eatLit (pat l : List Char) : Option (List Char) :=
  if List.isPrefixOf pat l then some (l.drop pat.length) else none

/-- Consume `\s+` (at least one whitespace character, then greedily all
following whitespace).  In the patterns below every `\s+` is followed by a
literal whose first character is not whitespace, so the greedy maximal munch
is the only possible match. -/
def eatWs1 : List Char → Option (List Char)
  | [] => none
  | c :: r => if wsChar c then some (r.dropWhile wsChar) else none

/-- Match `tag[^>]*>` at the head of `l` (e.g. `tag = "<h1"`): the literal
`tag`, then everything up to and including the first `>`.  Since `[^>]*` can
never cross a `>`, the greedy `[^>]*>` always stops at the first `>`. -/
def openTagAt (tag l : List Char) : Option (List Char) :=
  match eatLit tag l with
  | some r =>
    match splitFirst ['>'] r with
    | some (_, post) => some post
    | none => none
  | none => none

/-- Model of `WHITESPACE_RE.sub(" ", value)`: replace every maximal run of whitespace
by a single space.  The flag records whether the previous character was part
of a whitespace run. -/
def collapseWsAux : Bool → List Char → List Char
  | _, [] => []
  | prevWs, c :: rest =>
    if wsChar c then
      if prevWs then collapseWsAux true rest else ' ' :: collapseWsAux true rest
    else c :: collapseWsAux false rest

/-- Python `str.strip()` restricted to ASCII whitespace. -/
def pyStrip (l : List Char) : List Char :=
  ((l.dropWhile wsChar).reverse.dropWhile wsChar).reverse

/-- The function `normalize_spaces` from the script: collapse whitespace runs to single
spaces, then strip. -/
def normalize_spaces (l : List Char) : List Char :=
  pyStrip (collapseWsAux false l)

/-- Model of `TAG_RE.sub(" ", s)` with `TAG_RE = <[^>]+>`, written with explicit fuel
(one unit per input character suffices) so that the definition is structural
and kernel-reducible.  At a `<` the greedy `[^>]+>` matches exactly up to the
first later `>`, provided at least one character stands between; otherwise
`re.sub` moves one position to the right. -/
def tagSubF : Nat → List Char → List Char
  | 0, l => l
  | _ + 1, [] => []
  | n + 1, c :: rest =>
    if c = '<' then
      match List.span (fun x => !(x = '>')) rest with
      | (ins, r') =>
        match r' with
        | '>' :: r2 => if ins.isEmpty then '<' :: tagSubF n rest else ' ' :: tagSubF n r2
        | _ => '<' :: tagSubF n rest
    else c :: tagSubF n rest

/-- Model of `TAG_RE.sub(" ", s)`. -/
def tagSub (l : List Char) : List Char :=
  tagSubF l.length l

/-- Match `TITLE_RE = <title[^>]*>(.*?)</title>` (IGNORECASE, DOTALL) at one
position: the literal `<title`, anything up to the first `>`, then the
non-greedy group runs to the first following `</title>`. -/
def titleAt (l : List Char) : Option (List Char) :=
  match openTagAt "<title".data l with
  | some s =>
    match splitFirst "</title>".data s with
    | some (content, _) => some content
    | none => none
  | none => none

/-- Model of `TITLE_RE.search`: leftmost position at which `titleAt` succeeds.  The
input is assumed already lowered (IGNORECASE). -/
def titleSearch : List Char → Option (List Char)
  | [] => none
  | c :: rest =>
    match titleAt (c :: rest) with
    | some t => some t
    | none => titleSearch rest

/-- The four phrases of `NOT_FOUND_H1_RE`, split into words. -/
def w404 : List Char := "404".data

def wNot : List Char := "not".data

def wFound : List Char := "found".data

def wPage : List Char := "page".data

def closeH1 : List Char := "</h1>".data

/-- After the words of a phrase: each further word is `\s+word`, and at the
end `\s*` followed by the finishing test `fin` (either "the literal `</h1>`
starts here" or "the input is exhausted").  Every `\s+`/`\s*` is followed by
a non-whitespace literal, so greedy maximal munch is forced. -/
def phraseTail (fin : List Char → Bool) : List (List Char) → List Char → Bool
  | [], r => fin (r.dropWhile wsChar)
  | w :: ws, r =>
    match eatWs1 r with
    | some r2 =>
      match eatLit w r2 with
      | some r3 => phraseTail fin ws r3
      | none => false
    | none => false

/-- One alternative of the `NOT_FOUND_H1_RE` body: leading `\s*`, a first
word, then `phraseTail` for the remaining words. -/
def phraseAlt (fin : List Char → Bool) (w : List Char) (ws : List (List Char))
    (s : List Char) : Bool :=
  match eatLit w (s.dropWhile wsChar) with
  | some r => phraseTail fin ws r
  | none => false

/-- The body of `NOT_FOUND_H1_RE` after the opening tag:
`\s*(404(?:\s+not\s+found)?|page\s+not\s+found|not\s+found)\s*` followed by
`fin`.  The four alternatives start with distinct non-whitespace characters
(`4`, `p`, `n`), so at a fixed position at most one alternative applies and
ordered alternation is plain disjunction. -/
def phraseFrom (fin : List Char → Bool) (s : List Char) : Bool :=
  phraseAlt fin w404 [] s || phraseAlt fin w404 [wNot, wFound] s ||
    phraseAlt fin wPage [wNot, wFound] s || phraseAlt fin wNot [wFound] s

/-- The finishing test for the real regex: the close tag `</h1>` starts here
(whatever follows is irrelevant to `re.search`). -/
def h1Body (s : List Char) : Bool :=
  phraseFrom (fun r => List.isPrefixOf closeH1 r) s

/-- The content of an `<h1>` element consists of exactly one phrase
(surrounding whitespace allowed, nothing else). -/
def phraseOnly (c : List Char) : Bool :=
  phraseFrom List.isEmpty c

/-- Model of `NOT_FOUND_H1_RE.search(html) is not None`, on lowered input: some
position carries `<h1[^>]*>` followed by a phrase body and `</h1>`. -/
def h1Search : List Char → Bool
  | [] => false
  | c :: rest =>
    (match openTagAt "<h1".data (c :: rest) with
     | some s => h1Body s
     | none => false) || h1Search rest

/-- Python's substring operator `in`, via the leftmost-occurrence search. -/
def containsSub (pat l : List Char) : Bool :=
  (splitFirst pat l).isSome

/-- The function `is_html` from the script. -/
def is_html (content_type : String) : Bool :=
  let lowered := content_type.data.map Char.toLower
  containsSub "text/html".data lowered ||
    containsSub "application/xhtml+xml".data lowered

/-- The function `not_found_heuristic` from the script.  The body is lowered once up
front: `TITLE_RE` and `NOT_FOUND_H1_RE` carry `re.IGNORECASE` and the title
text is lowered before its substring checks, so scanning the lowered body is
equivalent (ASCII case folding does not touch `<`, `>`, digits or
whitespace). -/
def not_found_heuristic (html : String) : Option String :=
  if html.data.isEmpty then none
  else
    let low := html.data.map Char.toLower
    let titleVerdict :=
      match titleSearch low with
      | some content =>
        let t := normalize_spaces (tagSub content)
        if containsSub "404".data t && containsSub "not found".data t then
          some "HTML title indicates 404"
        else if containsSub "page not found".data t then
          some "HTML title indicates missing page"
        else none
      | none => none
    match titleVerdict with
    | some r => some r
    | none => if h1Search low then some "HTML h1 indicates missing page" else none

/-! ## Body decoding (`decode_body`) -/

/-- The scanner for `re.search(r"charset=([^\s;]+)", content_type, IGNORECASE)`
followed by `.strip("\"'")` on the captured group: at the leftmost position
where the literal `charset=` matches case-insensitively and at least one
non-whitespace, non-`;` character follows, capture the maximal run of such
characters (the greedy `[^\s;]+` is followed by nothing, so it is maximal). -/
def charsetToken (c : Char) : Bool :=
  !(wsChar c || c = ';')

def quoteChar (c : Char) : Bool :=
  c = '"' || c = Char.ofNat 39

/-- Python `str.strip("\"'")`. -/
def stripQuotes (l : List Char) : List Char :=
  ((l.dropWhile quoteChar).reverse.dropWhile quoteChar).reverse

def charsetSearch : List Char → Option (List Char)
  | [] => none
  | c :: rest =>
    if List.isPrefixOf "charset=".data ((c :: rest).map Char.toLower) then
      let tok := ((c :: rest).drop 8).takeWhile charsetToken
      if tok.isEmpty then charsetSearch rest else some (stripQuotes tok)
    else charsetSearch rest

/-- The codec registry of `bytes.decode(..., errors="replace")`: an unknown
encoding name raises `LookupError` (modelled as `none`); a known one decodes
totally (with `errors="replace"` no `UnicodeDecodeError` can occur). -/
def CodecReg : Type :=
  String → Option (List Nat → String)

/-- The function `decode_body` from the script.  `none` models the (in CPython unreachable)
final `raw.decode("utf-8")` raising `LookupError` when even `utf-8` is not in
the registry. -/
def decode_body (reg : CodecReg) (raw : List Nat) (content_type : String) :
    Option String :=
  if raw.isEmpty then some ""
  else
    let encodings :=
      (match charsetSearch content_type.data with
       | some cs => [String.mk cs]
       | none => []) ++ ["utf-8", "latin-1"]
    match encodings.findSome? (fun e => (reg e).map (fun d => d raw)) with
    | some s => some s
    | none => (reg "utf-8").map (fun d => d raw)

/-! ## Probe data model and classification -/

/-- One physical request's outcome, as the script's `ProbeResult` dataclass. -/
structure ProbeResult where
  status : Option Nat
  method : String
  final_url : Option String
  content_type : String
  body : String
  error : Option String
deriving DecidableEq, Repr

/-- A classified verdict, as the script's `UrlResult` dataclass. -/
structure UrlResult where
  ok : Bool
  method : String
  status : Option Nat
  detail : String
  retryable : Bool
  final_url : Option String
deriving DecidableEq, Repr

def RETRYABLE_STATUSES : List Nat := [408, 429, 500, 502, 503, 504]

/-- Python's `x or y` for an optional string `x` and default `y`:
`None` and the empty string are falsy. -/
def orDefault (x : Option String) (y : String) : String :=
  match x with
  | some s => if s.isEmpty then y else s
  | none => y

/-- The function `evaluate_probe` from the script. -/
def evaluate_probe (probe : ProbeResult) : UrlResult :=
  match probe.status with
  | none =>
    ⟨false, probe.method, none, orDefault probe.error "network failure", true,
      probe.final_url⟩
  | some s =>
    if 400 ≤ s then
      ⟨false, probe.method, some s,
        orDefault probe.error ("HTTP " ++ toString s),
        RETRYABLE_STATUSES.contains s, probe.final_url⟩
    else if probe.method == "GET" && is_html probe.content_type then
      match not_found_heuristic probe.body with
      | some reason => ⟨false, probe.method, some s, reason, false, probe.final_url⟩
      | none => ⟨true, probe.method, some s, "ok", false, probe.final_url⟩
    else ⟨true, probe.method, some s, "ok", false, probe.final_url⟩

/-! ## The network layer (`fetch`) -/

/-- What the network does with one request, abstracting `urlopen`:
a success response, an `HTTPError`, or a transport-level failure
(`URLError`, timeout, `OSError`), whose description string bundles
`f"{type(error).__name__}: {reason}"`. -/
inductive NetResp where
  | success (status : Nat) (content_type : String) (final_url : String) (raw : List Nat)
  | httpError (code : Nat) (content_type : String) (final_url : String) (raw : List Nat)
  | netFailure (errdesc : String)

/-- The function `fetch` from the script, with the network behaviour supplied as an oracle
from request method to response.  The body is read (at most `max_body_bytes`
bytes) and decoded only for GET requests; CPython's registry always resolves
`utf-8`, so the `LookupError` escape of `decode_body` is collapsed by
`Option.getD` (it is unreachable for faithful registries). -/
def fetch (reg : CodecReg) (net : String → NetResp) (max_body_bytes : Nat)
    (method : String) : ProbeResult :=
  match net method with
  | .success s ct fu raw =>
    let r := if method == "GET" then raw.take max_body_bytes else []
    ⟨some s, method, some fu, ct, (decode_body reg r ct).getD "", none⟩
  | .httpError code ct fu raw =>
    let r := if method == "GET" then raw.take max_body_bytes else []
    ⟨some code, method, some fu, ct, (decode_body reg r ct).getD "",
      some ("HTTP " ++ toString code)⟩
  | .netFailure e => ⟨none, method, none, "", "", some e⟩

/-- Python truthiness of `head_probe.status and head_probe.status >= 400`:
`None` and `0` are falsy, so the conjunct holds exactly when a status is
present and at least 400. -/
def statusGe400 : Option Nat → Bool
  | some s => 400 ≤ s
  | none => false

/-- The function `check_once` from the script.  The second component is the trace of
physically issued request methods, in order. -/
def check_once (reg : CodecReg) (net : String → NetResp) (max_body_bytes : Nat) :
    UrlResult × List String :=
  let head_probe := fetch reg net max_body_bytes "HEAD"
  let head_result := evaluate_probe head_probe
  if head_result.ok && !is_html head_probe.content_type then (head_result, ["HEAD"])
  else
    let get_probe := fetch reg net max_body_bytes "GET"
    let get_result0 := evaluate_probe get_probe
    let get_result :=
      if head_result.ok then { get_result0 with method := "GET (verify-html)" }
      else if get_result0.method == "GET" then
        { get_result0 with method := "GET (fallback)" }
      else get_result0
    if !get_result.ok && statusGe400 head_probe.status && get_probe.status == none then
      (head_result, ["HEAD", "GET"])
    else (get_result, ["HEAD", "GET"])

/-! ## Retry controller (`check_with_retries`) -/

/-- Outcome of the retry loop: terminal verdict, attempt count consumed,
the sleeps performed between attempts (in seconds), and the trace of attempt
numbers at which `check_once` was invoked. -/
structure RetryOutcome where
  result : UrlResult
  attempt : Nat
  sleeps : List ℚ
  calls : List Nat
deriving DecidableEq, Repr

/-- The sentinel `UrlResult(False, "HEAD", None, "uninitialized", True, None)`
that the script assigns before the loop. -/
def uninitResult : UrlResult :=
  ⟨false, "HEAD", none, "uninitialized", true, none⟩

/-- The `for attempt in range(1, attempts + 1)` loop of `check_with_retries`.
The probe outcome of each attempt is an oracle `check : Nat → UrlResult`
(attempt number to verdict, abstracting one `check_once` run).  `fuel` is the
number of loop iterations left; the fuel-exhausted case mirrors the
(unreachable) `return result, attempts` after the loop. -/
def retryGo (check : Nat → UrlResult) (retry_delay : ℚ) (attempts : Nat) :
    Nat → Nat → UrlResult → RetryOutcome
  | 0, _, last => ⟨last, attempts, [], []⟩
  | fuel + 1, attempt, _ =>
    let result := check attempt
    if result.ok then ⟨result, attempt, [], [attempt]⟩
    else if result.retryable && decide (attempt < attempts) then
      let rec0 := retryGo check retry_delay attempts fuel (attempt + 1) result
      ⟨rec0.result, rec0.attempt, retry_delay * (attempt : ℚ) :: rec0.sleeps,
        attempt :: rec0.calls⟩
    else ⟨result, attempt, [], [attempt]⟩

/-- The function `check_with_retries` from the script: `retries + 1` total attempts,
starting at attempt 1. -/
def check_with_retries (check : Nat → UrlResult) (retries : Nat)
    (retry_delay : ℚ) : RetryOutcome :=
  retryGo check retry_delay (retries + 1) (retries + 1) 1 uninitResult

/-! ## URL extraction (`load_unique_urls`) -/

/-- Lexicographic code-point order on character lists: exactly Python's
string comparison (and Lean's `String` order), but structurally recursive so
that it kernel-reduces. -/
def lexLe : List Char → List Char → Bool
  | [], _ => true
  | _ :: _, [] => false
  | a :: as, b :: bs => if a = b then lexLe as bs else decide (a < b)

/-- The order used for reporting: Python's `sorted` on strings. -/
def strLe (a b : String) : Prop :=
  lexLe a.data b.data = true

instance : DecidableRel strLe := fun a b => by
  unfold strLe; infer_instance

/-- Model of `sorted(set(xs))`: drop duplicates, then sort lexicographically. -/
def sortedDedup (l : List String) : List String :=
  List.insertionSort strLe l.dedup

/-- The set `scheme_chars` of `urllib.parse`: ASCII alphanumerics and `+-.`. -/
def schemeChar (c : Char) : Bool :=
  c.isAlpha || c.isDigit || c = '+' || c = '-' || c = '.'

/-- The scheme/netloc extraction of CPython's `urllib.parse.urlsplit`
(hence of `urlparse`): tab, CR and LF are removed; if the first `:` is
preceded by a non-empty run of scheme characters starting with an ASCII
letter, that run (lowered) is the scheme; a netloc is present when the
remainder begins with `//` and extends to the first `/`, `?` or `#`.
(The `Invalid IPv6 URL` / bracketed-host `ValueError` paths of `urlsplit`
are outside the model.) -/
def urlSchemeNetloc (url0 : List Char) : List Char × List Char :=
  let url := url0.filter fun c => !(c = '\t' || c = '\r' || c = '\n')
  let parsed :=
    match splitFirst [':'] url with
    | some (pre, post) =>
      if !pre.isEmpty && (match pre with
          | c :: _ => c.isAlpha
          | [] => false) && pre.all schemeChar then
        (pre.map Char.toLower, post)
      else ([], url)
    | none => ([], url)
  let netloc :=
    if List.isPrefixOf ['/', '/'] parsed.2 then
      (parsed.2.drop 2).takeWhile fun c => !(c = '/' || c = '?' || c = '#')
    else []
  (parsed.1, netloc)

/-- The script's validity test on an already-stripped entry:
`parsed.scheme in {"http", "https"} and parsed.netloc`. -/
def goodUrl (u : String) : Bool :=
  let p := urlSchemeNetloc u.data
  (p.1 = "http".data || p.1 = "https".data) && !p.2.isEmpty

/-- One entry of a rule's `evidence.source_urls` list: a string, or a JSON
value of any other type (only its non-stringness matters to the script). -/
inductive Entry where
  | str (s : String)
  | nonstr
deriving DecidableEq, Repr

/-- A rule record, reduced to the fields the script reads: `id` (absent is
reported as `<unknown>`) and `evidence.source_urls` (a missing or null
`evidence`/`source_urls` is the empty list). -/
structure Rule where
  id : Option String
  source_urls : List Entry
deriving DecidableEq, Repr

/-- Model of `rule.get("id", "<unknown>")`. -/
def ruleId (r : Rule) : String :=
  r.id.getD "<unknown>"

/-- The URL a valid entry contributes (after `strip()`), if any. -/
def validOfEntry : Entry → Option String
  | .nonstr => none
  | .str s =>
    let u := String.mk (pyStrip s.data)
    if u.data.isEmpty then none
    else if goodUrl u then some u else none

/-- The invalid-entry diagnostic an entry contributes, if any, tagged with
the owning rule identifier exactly as the script formats it. -/
def diagOfEntry (rid : String) : Entry → Option String
  | .nonstr => some (rid ++ ": non-string URL entry")
  | .str s =>
    let u := String.mk (pyStrip s.data)
    if u.data.isEmpty then some (rid ++ ": empty URL entry")
    else if goodUrl u then none
    else some (rid ++ ": invalid URL '" ++ u ++ "'")

/-- The function `load_unique_urls` from the script: the sorted deduplicated valid URLs
and the sorted deduplicated invalid-entry diagnostics (Python accumulates
each into a `set` and returns `sorted(...)` of both). -/
def load_unique_urls (rules : List Rule) : List String × List String :=
  (sortedDedup (rules.flatMap fun r => r.source_urls.filterMap validOfEntry),
   sortedDedup (rules.flatMap fun r => r.source_urls.filterMap (diagOfEntry (ruleId r))))

/-! ## Reporter (`main`) -/

/-- The status placeholder of a report line. -/
def statusStr : Option Nat → String
  | some s => toString s
  | none => "-"

/-- The redirect suffix: Python appends only when `final_url` is truthy and
differs from the input URL. -/
def redirectStr (url : String) : Option String → String
  | some f => if !f.isEmpty && f ≠ url then " -> " ++ f else ""
  | none => ""

/-- One per-URL report line, exactly as the script prints it. -/
def reportLine (url : String) (r : UrlResult) (attempt : Nat) : String :=
  if r.ok then
    "OK     [" ++ statusStr r.status ++ "] " ++ r.method ++ " " ++ url ++
      redirectStr url r.final_url
  else
    "BROKEN [" ++ statusStr r.status ++ "] " ++ r.method ++ " " ++ url ++ " (" ++
      r.detail ++ "; attempts=" ++ toString attempt ++ ")" ++ redirectStr url r.final_url

/-- The result of one `main` run (pure part): the printed lines in order, the
process exit code, and the trace of URLs handed to the network layer. -/
structure MainOut where
  lines : List String
  exitCode : Nat
  probed : List String
deriving DecidableEq, Repr

/-- The function `main` from the script, with per-URL per-attempt probe verdicts given by
the oracle `check` (the outcome of `check_once` for that URL at that attempt
number).  Counters are accumulated exactly as the two loops do. -/
def main_run (rules : List Rule) (check : String → Nat → UrlResult)
    (retries : Nat) (retry_delay : ℚ) : MainOut :=
  let loaded := load_unique_urls rules
  let urls := loaded.1
  let invalid_entries := loaded.2
  let invalidLines := invalid_entries.map (fun e => "BROKEN [-] parse " ++ e)
  let outcomes := urls.map fun u => (u, check_with_retries (check u) retries retry_delay)
  let urlLines := outcomes.map fun p => reportLine p.1 p.2.result p.2.attempt
  let okCount := (outcomes.filter fun p => p.2.result.ok).length
  let brokenCount :=
    invalid_entries.length + (outcomes.filter fun p => !p.2.result.ok).length
  let summary := "Summary: checked=" ++ toString (urls.length + invalid_entries.length) ++
    " ok=" ++ toString okCount ++ " broken=" ++ toString brokenCount
  ⟨invalidLines ++ urlLines ++ [summary], if brokenCount = 0 then 0 else 1, urls⟩

/-! ## Specification-side definitions

These follow the wording of the specification claims (not the code) and are
compared with the code-level definitions above. -/

/-- The four phrases of the h1 rule, as the spec lists them. -/
def notFoundPhrases : List (List Char) :=
  ["404".data, "404 not found".data, "page not found".data, "not found".data]

/-- Spec-side h1 rule, as claim C4 words it: some `<h1>` element (opening tag
to the first following `</h1>`) whose text, after stripping embedded tags and
collapsing/stripping whitespace, equals one of the four phrases.  Input is
the lowered body (the rules are case-insensitive). -/
def specH1TagStrip : List Char → Bool
  | [] => false
  | c :: rest =>
    (match openTagAt "<h1".data (c :: rest) with
     | some s =>
       match splitFirst closeH1 s with
       | some (content, _) => notFoundPhrases.contains (normalize_spaces (tagSub content))
       | none => false
     | none => false) || specH1TagStrip rest

/-- Amended spec-side h1 rule: some `<h1>` element whose raw inner content —
with no embedded tags — is exactly one of the four phrases up to surrounding
whitespace and whitespace runs between the words. -/
def h1ElemFires : List Char → Bool
  | [] => false
  | c :: rest =>
    (match openTagAt "<h1".data (c :: rest) with
     | some s =>
       match splitFirst closeH1 s with
       | some (content, _) => phraseOnly content
       | none => false
     | none => false) || h1ElemFires rest

/-- The three ordered rules of claim C4, parameterised by the h1 rule
(original tag-stripping version or amended version).  Rules 1 and 2 follow
the claim's words: the `<title>` element found by the scan, its text with
embedded tags stripped and whitespace collapsed, compared case-insensitively
by substring. -/
def claimNotFound (h1rule : List Char → Bool) (html : String) : Option String :=
  let low := html.data.map Char.toLower
  match titleSearch low with
  | some content =>
    let t := normalize_spaces (tagSub content)
    if containsSub "404".data t && containsSub "not found".data t then
      some "HTML title indicates 404"
    else if containsSub "page not found".data t then
      some "HTML title indicates missing page"
    else if h1rule low then some "HTML h1 indicates missing page"
    else none
  | none => if h1rule low then some "HTML h1 indicates missing page" else none

/-- Claim C6's classification of a bad evidence entry: non-string, empty
after trimming, scheme other than http/https, or empty host. -/
def badEntry : Entry → Bool
  | .nonstr => true
  | .str s =>
    let u := pyStrip s.data
    if u.isEmpty then true
    else
      let p := urlSchemeNetloc u
      !(p.1 = "http".data || p.1 = "https".data) || p.2.isEmpty

/-! ## Concrete inputs used by witnesses and counterexamples -/

/-- Claim C6's concrete dataset entry `ftp://example.com/x`. -/
def ftpRules : List Rule :=
  [⟨some "rule-7", [.str "ftp://example.com/x"]⟩]

/-- The body refuting claim C4 as stated: the `<h1>` text equals `404` after
tag stripping, but the tags are embedded. -/
def ceHtml : String := "<h1><b>404</b></h1>"

/-- A network that answers nothing at all. -/
def netDown : String → NetResp := fun _ => .netFailure "URLError: connection refused"

/-- A network that answers the HEAD with a definite 500 but drops the GET. -/
def netHeadErrorGetDrop : String → NetResp := fun m =>
  if m == "HEAD" then .httpError 500 "text/plain" "http://e/" []
  else .netFailure "TimeoutError: timed out"

/-- A network serving an HTML page successfully on both methods. -/
def netHtmlOk : String → NetResp := fun _ =>
  .success 200 "text/html" "http://e/" []

/-- A network serving a plain-text resource successfully. -/
def netPlainOk : String → NetResp := fun _ =>
  .success 200 "text/plain" "http://e/" []

/-- A registry that resolves only `utf-8`, with a decoder that ignores its
input (sufficient for witnesses). -/
def utf8Reg : CodecReg := fun e => if e = "utf-8" then some (fun _ => "") else none

/-- An always-successful probe verdict. -/
def okVerdict : UrlResult := ⟨true, "HEAD", some 200, "ok", false, some "http://e/"⟩

/-- A permanently failing (non-retryable) probe verdict. -/
def permFailVerdict : UrlResult := ⟨false, "GET (fallback)", some 404, "HTTP 404", false, none⟩

/-- The charset name declared in a content-type header, if any. -/
def declaredCharset (ct : String) : Option String :=
  (charsetSearch ct.data).map String.mk

/-- Claim C9's decoding discipline, from the spec's words: decode with the
charset declared in the content-type header; when that fails (the registry
does not know it), fall back to UTF-8, and then to Latin-1; with no declared
charset, start at the UTF-8 step.  `none` = every decode failed. -/
def spec_decode (reg : CodecReg) (raw : List Nat) (ct : String) : Option String :=
  let fallback :=
    match reg "utf-8" with
    | some d => some (d raw)
    | none =>
      match reg "latin-1" with
      | some d => some (d raw)
      | none => none
  match declaredCharset ct with
  | some enc =>
    match reg enc with
    | some d => some (d raw)
    | none => fallback
  | none => fallback

/-! ## Theorems -/

theorem evaluate_probe_method (p : ProbeResult) : (evaluate_probe p).method = p.method := by
  unfold evaluate_probe
  cases p.status with
  | none => rfl
  | some s =>
    by_cases h : 400 ≤ s
    · simp [h]
    · by_cases hg : p.method == "GET" && is_html p.content_type
      · simp [h, hg]
        cases not_found_heuristic p.body <;> rfl
      · simp [h, hg]

theorem fetch_method (reg : CodecReg) (net : String → NetResp) (maxB : Nat)
    (m : String) : (fetch reg net maxB m).method = m := by
  unfold fetch
  cases net m <;> rfl

theorem evaluate_probe_ok_of_none (p : ProbeResult) (h : p.status = none) :
    (evaluate_probe p).ok = false := by
  unfold evaluate_probe
  rw [h]

theorem evaluate_probe_ok_of_ge400 (p : ProbeResult) (h : statusGe400 p.status = true) :
    (evaluate_probe p).ok = false := by
  cases hs : p.status with
  | none => rw [hs] at h; cases h
  | some s =>
    rw [hs] at h
    unfold statusGe400 at h
    simp only [decide_eq_true_eq] at h
    unfold evaluate_probe
    rw [hs]
    simp [h]

theorem evaluate_probe_not400_of_ok (p : ProbeResult)
    (h : (evaluate_probe p).ok = true) : statusGe400 p.status = false := by
  by_contra hc
  rw [evaluate_probe_ok_of_ge400 p (by revert hc; cases statusGe400 p.status <;> simp)] at h
  cases h

/-- Claim C3 — `evaluate_probe` classifies: a probe with no status code at all is
a failure, retryable, with detail the underlying error description; a probe
with status ≥ 400 is a failure whose retryable flag holds exactly when the
status lies in {408, 429, 500, 502, 503, 504}. -/
theorem claim_C3 (probe : ProbeResult) :
    (probe.status = none →
      (evaluate_probe probe).ok = false ∧ (evaluate_probe probe).retryable = true ∧
        ∀ e, probe.error = some e → ¬e.isEmpty = true → (evaluate_probe probe).detail = e) ∧
    (∀ s, probe.status = some s → 400 ≤ s →
      (evaluate_probe probe).ok = false ∧
        ((evaluate_probe probe).retryable = true ↔ s ∈ RETRYABLE_STATUSES)) := by
  constructor
  · intro h
    unfold evaluate_probe
    rw [h]
    refine ⟨rfl, rfl, ?_⟩
    intro e he hne
    simp only [orDefault, he]
    simp only [Bool.not_eq_true] at hne
    simp [hne]
  · intro s hs h400
    unfold evaluate_probe
    rw [hs]
    simp only [if_pos h400]
    constructor
    · simp
    · exact List.elem_iff

/-- Witness for C3 at two concrete probes: a transport failure with error
description "boom", and an HTTP 503. -/
theorem claim_C3_witness :
    (evaluate_probe ⟨none, "HEAD", none, "", "", some "boom"⟩).retryable = true ∧
    (evaluate_probe ⟨none, "HEAD", none, "", "", some "boom"⟩).detail = "boom" ∧
    ((evaluate_probe ⟨some 503, "HEAD", none, "", "", some "HTTP 503"⟩).retryable = true ↔
      503 ∈ RETRYABLE_STATUSES) :=
  ⟨((claim_C3 _).1 rfl).2.1,
   ((claim_C3 _).1 rfl).2.2 "boom" rfl (by decide),
   ((claim_C3 _).2 503 rfl (by decide)).2⟩

/-- Claim C5 — when the HEAD probe's verdict is successful and its content type
is not HTML, `check_once` issues exactly one physical request (the HEAD) and
returns the HEAD verdict unchanged. -/
theorem claim_C5 (reg : CodecReg) (net : String → NetResp) (max_body_bytes : Nat)
    (hok : (evaluate_probe (fetch reg net max_body_bytes "HEAD")).ok = true)
    (hct : is_html (fetch reg net max_body_bytes "HEAD").content_type = false) :
    check_once reg net max_body_bytes =
      (evaluate_probe (fetch reg net max_body_bytes "HEAD"), ["HEAD"]) := by
  unfold check_once
  simp [hok, hct]

/-- Witness for C5: a network serving `text/plain` with status 200. -/
theorem claim_C5_witness :
    (evaluate_probe (fetch utf8Reg netPlainOk 9 "HEAD")).ok = true ∧
    is_html (fetch utf8Reg netPlainOk 9 "HEAD").content_type = false ∧
    check_once utf8Reg netPlainOk 9 =
      (evaluate_probe (fetch utf8Reg netPlainOk 9 "HEAD"), ["HEAD"]) :=
  ⟨by decide, by decide, claim_C5 _ _ _ (by decide) (by decide)⟩

/-- Claim C9 — for a non-empty GET body, `decode_body` decodes with the charset
declared in the content-type header, falling back to UTF-8 and then to
Latin-1 when decoding fails (an encoding unknown to the registry). -/
theorem claim_C9 (reg : CodecReg) (raw : List Nat) (content_type : String)
    (h : ¬raw.isEmpty = true) :
    decode_body reg raw content_type = spec_decode reg raw content_type := by
  unfold decode_body spec_decode declaredCharset
  simp only [h, if_false, Bool.false_eq_true]
  cases hcs : charsetSearch content_type.data with
  | none =>
    simp only [Option.map_none', List.nil_append, List.findSome?_cons]
    cases reg "utf-8" with
    | some d => rfl
    | none =>
      simp only [Option.map_none', List.findSome?_cons]
      cases reg "latin-1" with
      | some d => rfl
      | none => rfl
  | some cs =>
    simp only [Option.map_some', List.cons_append, List.nil_append, List.findSome?_cons]
    cases reg (String.mk cs) with
    | some d => rfl
    | none =>
      simp only [Option.map_none', List.findSome?_cons]
      cases reg "utf-8" with
      | some d => rfl
      | none =>
        simp only [Option.map_none', List.findSome?_cons]
        cases reg "latin-1" with
        | some d => rfl
        | none => rfl

/-- Witness for C9: a one-byte body with an undeclared-codec charset under
the utf-8-only registry. -/
theorem claim_C9_witness :
    ¬(([65] : List Nat).isEmpty = true) ∧
    decode_body utf8Reg [65] "text/plain; charset=bogus" =
      spec_decode utf8Reg [65] "text/plain; charset=bogus" :=
  ⟨by decide, claim_C9 _ _ _ (by decide)⟩

theorem snd_ite_pair {α β : Type} (c : Prop) [Decidable c] (a b : α) (t : β) :
    (if c then (a, t) else (b, t)).2 = t := by
  split <;> rfl

/-- Claim C1 — the `check_once` tie-break policy: (1) a GET probe is issued
whenever the HEAD verdict is unsuccessful or the HEAD content type is HTML;
(2) with a successful HEAD verdict, the GET verdict is returned relabelled as
the verification pass; (3) with a definite HEAD status ≥ 400 and a GET probe
carrying no status at all, the HEAD verdict is returned; (4) in all other
cases the GET verdict is returned, relabelled as fallback since the HEAD
verdict failed. -/
theorem claim_C1 (reg : CodecReg) (net : String → NetResp) (max_body_bytes : Nat) :
    (((evaluate_probe (fetch reg net max_body_bytes "HEAD")).ok = false ∨
        is_html (fetch reg net max_body_bytes "HEAD").content_type = true) →
      (check_once reg net max_body_bytes).2 = ["HEAD", "GET"]) ∧
    ((evaluate_probe (fetch reg net max_body_bytes "HEAD")).ok = true →
      is_html (fetch reg net max_body_bytes "HEAD").content_type = true →
      (check_once reg net max_body_bytes).1 =
        { evaluate_probe (fetch reg net max_body_bytes "GET") with
            method := "GET (verify-html)" }) ∧
    (∀ s, (fetch reg net max_body_bytes "HEAD").status = some s → 400 ≤ s →
      (fetch reg net max_body_bytes "GET").status = none →
      (check_once reg net max_body_bytes).1 =
        evaluate_probe (fetch reg net max_body_bytes "HEAD")) ∧
    ((evaluate_probe (fetch reg net max_body_bytes "HEAD")).ok = false →
      ¬(statusGe400 (fetch reg net max_body_bytes "HEAD").status = true ∧
          (fetch reg net max_body_bytes "GET").status = none) →
      (check_once reg net max_body_bytes).1 =
        { evaluate_probe (fetch reg net max_body_bytes "GET") with
            method := "GET (fallback)" }) := by
  refine ⟨?_, ?_, ?_, ?_⟩
  · intro h
    unfold check_once
    rcases h with h | h
    · simp only [h, Bool.false_and, Bool.false_eq_true, if_false]
      exact snd_ite_pair _ _ _ _
    · simp only [h, Bool.not_true, Bool.and_false, Bool.false_eq_true, if_false]
      exact snd_ite_pair _ _ _ _
  · intro hok hct
    unfold check_once
    simp only [hok, hct, Bool.not_true, Bool.and_false, Bool.false_eq_true, if_false,
      if_pos rfl]
    have h400 := evaluate_probe_not400_of_ok _ hok
    simp [h400]
  · intro s hs h400 hget
    have hge : statusGe400 (fetch reg net max_body_bytes "HEAD").status = true := by
      rw [hs]; unfold statusGe400; simpa using h400
    have hok : (evaluate_probe (fetch reg net max_body_bytes "HEAD")).ok = false :=
      evaluate_probe_ok_of_ge400 _ hge
    have hgok : (evaluate_probe (fetch reg net max_body_bytes "GET")).ok = false :=
      evaluate_probe_ok_of_none _ hget
    unfold check_once
    simp only [hok, Bool.false_and, Bool.false_eq_true, if_false, hge, hget]
    have hm : (evaluate_probe (fetch reg net max_body_bytes "GET")).method = "GET" := by
      rw [evaluate_probe_method, fetch_method]
    simp [hm, hgok]
  · intro hok hnot
    unfold check_once
    simp only [hok, Bool.false_and, Bool.false_eq_true, if_false]
    have hm : (evaluate_probe (fetch reg net max_body_bytes "GET")).method = "GET" := by
      rw [evaluate_probe_method, fetch_method]
    rcases Decidable.not_and_iff_or_not.mp hnot with h | h
    · have hge : statusGe400 (fetch reg net max_body_bytes "HEAD").status = false := by
        revert h; cases statusGe400 (fetch reg net max_body_bytes "HEAD").status <;> simp
      simp [hm, hge]
    · have hg : ((fetch reg net max_body_bytes "GET").status == none) = false := by
        revert h; cases (fetch reg net max_body_bytes "GET").status <;> simp
      simp [hm, hg]

/-- Witness for C1 at three concrete networks: an all-down network (cases 1
and 4), a HEAD-500-GET-dropped network (case 3), and an HTML success network
(case 2). -/
theorem claim_C1_witness :
    (check_once utf8Reg netDown 9).2 = ["HEAD", "GET"] ∧
    (check_once utf8Reg netHtmlOk 9).1 =
      { evaluate_probe (fetch utf8Reg netHtmlOk 9 "GET") with method := "GET (verify-html)" } ∧
    (check_once utf8Reg netHeadErrorGetDrop 9).1 =
      evaluate_probe (fetch utf8Reg netHeadErrorGetDrop 9 "HEAD") ∧
    (check_once utf8Reg netDown 9).1 =
      { evaluate_probe (fetch utf8Reg netDown 9 "GET") with method := "GET (fallback)" } :=
  ⟨(claim_C1 utf8Reg netDown 9).1 (Or.inl (by decide)),
   (claim_C1 utf8Reg netHtmlOk 9).2.1 (by decide) (by decide),
   (claim_C1 utf8Reg netHeadErrorGetDrop 9).2.2.1 500 (by decide) (by decide) (by decide),
   (claim_C1 utf8Reg netDown 9).2.2.2 (by decide) (by decide)⟩

theorem retryGo_calls_le (check : Nat → UrlResult) (d : ℚ) (attempts : Nat) :
    ∀ fuel attempt last,
      (retryGo check d attempts fuel attempt last).calls.length ≤ fuel := by
  intro fuel
  induction fuel with
  | zero => intro attempt last; simp [retryGo]
  | succ n ih =>
    intro attempt last
    unfold retryGo
    by_cases hok : (check attempt).ok
    · simp [hok]
    · by_cases hr : (check attempt).retryable && decide (attempt < attempts)
      · simp only [hok, Bool.false_eq_true, if_false, hr, if_true]
        have := ih (attempt + 1) (check attempt)
        simpa using Nat.succ_le_succ this
      · simp [hok, hr]

theorem retryGo_first_ok (check : Nat → UrlResult) (d : ℚ) (attempts a : Nat)
    (ha : a ≤ attempts) (hok : (check a).ok = true) :
    ∀ fuel attempt last, attempt + fuel = attempts + 1 → attempt ≤ a →
      (∀ i, attempt ≤ i → i < a → (check i).ok = false ∧ (check i).retryable = true) →
      retryGo check d attempts fuel attempt last =
        ⟨check a, a, (List.range' attempt (a - attempt)).map (fun i => d * (i : ℚ)),
          List.range' attempt (a - attempt + 1)⟩ := by
  intro fuel
  induction fuel with
  | zero => intro attempt last hsum hle _; omega
  | succ n ih =>
    intro attempt last hsum hle hfail
    rcases Nat.eq_or_lt_of_le hle with heq | hlt
    · subst heq
      unfold retryGo
      simp [hok, Nat.sub_self, List.range']
    · have hf := hfail attempt le_rfl hlt
      have hlt2 : attempt < attempts := lt_of_lt_of_le hlt ha
      have hcond : ((check attempt).retryable && decide (attempt < attempts)) = true := by
        simp [hf.2, hlt2]
      unfold retryGo
      simp only [hf.1, Bool.false_eq_true, if_false, hcond, if_true]
      rw [ih (attempt + 1) (check attempt) (by omega) (by omega)
        (fun i h1 h2 => hfail i (by omega) h2)]
      have h1 : a - attempt = (a - (attempt + 1)) + 1 := by omega
      rw [h1]
      simp [List.range'_succ]

theorem retryGo_all_retry (check : Nat → UrlResult) (d : ℚ) (attempts : Nat) :
    ∀ fuel attempt last, attempt + fuel = attempts + 1 → attempt ≤ attempts →
      (∀ i, attempt ≤ i → i ≤ attempts → (check i).ok = false ∧ (check i).retryable = true) →
      retryGo check d attempts fuel attempt last =
        ⟨check attempts, attempts,
          (List.range' attempt (attempts - attempt)).map (fun i => d * (i : ℚ)),
          List.range' attempt (attempts - attempt + 1)⟩ := by
  intro fuel
  induction fuel with
  | zero => intro attempt last hsum hle _; omega
  | succ n ih =>
    intro attempt last hsum hle hfail
    have hf := hfail attempt le_rfl hle
    rcases Nat.eq_or_lt_of_le hle with heq | hlt
    · subst heq
      unfold retryGo
      simp [hf.1, hf.2, Nat.sub_self, List.range']
    · have hcond : ((check attempt).retryable && decide (attempt < attempts)) = true := by
        simp [hf.2, hlt]
      unfold retryGo
      simp only [hf.1, Bool.false_eq_true, if_false, hcond, if_true]
      rw [ih (attempt + 1) (check attempt) (by omega) (by omega)
        (fun i h1 h2 => hfail i (by omega) h2)]
      have h1 : attempts - attempt = (attempts - (attempt + 1)) + 1 := by omega
      rw [h1]
      simp [List.range'_succ]

/-- Claim C2 — the retry controller: (a) `check_once` is invoked at most
`retries + 1` times; (b) the loop returns immediately with the attempt count
on the first successful verdict, having slept `delay×1, ..., delay×(a-1)`;
(c) when every attempt fails retryably it consumes exactly `retries + 1`
attempts with sleeps `delay×1, ..., delay×retries`; (d) a first verdict that
fails non-retryably is returned after exactly one attempt, with no sleep,
even when `retries > 0`; (e) the `retries = 2` instance of (c): exactly 3
attempts and sleeps `delay×1` then `delay×2`. -/
theorem claim_C2 (check : Nat → UrlResult) (retries : Nat) (retry_delay : ℚ) :
    ((check_with_retries check retries retry_delay).calls.length ≤ retries + 1) ∧
    (∀ a, 1 ≤ a → a ≤ retries + 1 → (check a).ok = true →
      (∀ i, 1 ≤ i → i < a → (check i).ok = false ∧ (check i).retryable = true) →
      check_with_retries check retries retry_delay =
        ⟨check a, a, (List.range' 1 (a - 1)).map (fun i => retry_delay * (i : ℚ)),
          List.range' 1 a⟩) ∧
    ((∀ i, 1 ≤ i → i ≤ retries + 1 → (check i).ok = false ∧ (check i).retryable = true) →
      check_with_retries check retries retry_delay =
        ⟨check (retries + 1), retries + 1,
          (List.range' 1 retries).map (fun i => retry_delay * (i : ℚ)),
          List.range' 1 (retries + 1)⟩) ∧
    ((check 1).ok = false → (check 1).retryable = false →
      check_with_retries check retries retry_delay = ⟨check 1, 1, [], [1]⟩) ∧
    (retries = 2 →
      (∀ i, 1 ≤ i → i ≤ 3 → (check i).ok = false ∧ (check i).retryable = true) →
      check_with_retries check retries retry_delay =
        ⟨check 3, 3, [retry_delay * (1 : ℚ), retry_delay * (2 : ℚ)],
          [1, 2, 3]⟩) := by
  refine ⟨?_, ?_, ?_, ?_, ?_⟩
  · exact retryGo_calls_le check retry_delay (retries + 1) (retries + 1) 1 uninitResult
  · intro a h1 h2 hok hfail
    unfold check_with_retries
    rw [retryGo_first_ok check retry_delay (retries + 1) a h2 hok (retries + 1) 1
      uninitResult (by omega) h1 (fun i hi1 hi2 => hfail i hi1 hi2)]
    have : a - 1 + 1 = a := by omega
    rw [this]
  · intro hfail
    unfold check_with_retries
    rw [retryGo_all_retry check retry_delay (retries + 1) (retries + 1) 1 uninitResult
      (by omega) (by omega) (fun i hi1 hi2 => hfail i hi1 hi2)]
    simp
  · intro hok hr
    unfold check_with_retries retryGo
    simp [hok, hr]
  · intro hr hfail
    subst hr
    unfold check_with_retries
    rw [retryGo_all_retry check retry_delay 3 3 1 uninitResult (by omega) (by omega)
      (fun i hi1 hi2 => hfail i hi1 hi2)]
    norm_num [List.range']

/-- Witness for C2 at concrete probe oracles: an always-retryable failure
consuming all three attempts with two sleeps, a success at the second
attempt, and a non-retryable failure short-circuiting at attempt 1 despite
`retries = 2`. -/
theorem claim_C2_witness :
    (check_with_retries (fun _ => uninitResult) 2 1 =
      ⟨uninitResult, 3, [(1 : ℚ) * (1 : ℚ), (1 : ℚ) * (2 : ℚ)], [1, 2, 3]⟩) ∧
    (check_with_retries (fun a => if a ≤ 1 then uninitResult else okVerdict) 2 1 =
      ⟨okVerdict, 2, (List.range' 1 1).map (fun i => (1 : ℚ) * (i : ℚ)),
        List.range' 1 2⟩) ∧
    (check_with_retries (fun _ => permFailVerdict) 2 1 =
      ⟨permFailVerdict, 1, [], [1]⟩) := by
  refine ⟨?_, ?_, ?_⟩
  · exact (claim_C2 (fun _ => uninitResult) 2 1).2.2.2.2 rfl
      (fun i _ _ => ⟨rfl, rfl⟩)
  · exact (claim_C2 (fun a => if a ≤ 1 then uninitResult else okVerdict) 2 1).2.1 2
      (by omega) (by omega) (by decide)
      (fun i hi1 hi2 => by
        have : i = 1 := by omega
        subst this
        exact ⟨by decide, by decide⟩)
  · exact (claim_C2 (fun _ => permFailVerdict) 2 1).2.2.2.1 rfl rfl

theorem lexLe_total : ∀ a b : List Char, lexLe a b = true ∨ lexLe b a = true
  | [], _ => Or.inl rfl
  | _ :: _, [] => Or.inr rfl
  | a :: as, b :: bs => by
    by_cases h : a = b
    · subst h
      rcases lexLe_total as bs with ih | ih
      · exact Or.inl (by simp [lexLe, ih])
      · exact Or.inr (by simp [lexLe, ih])
    · rcases lt_trichotomy a b with hlt | heq | hgt
      · exact Or.inl (by simp [lexLe, h, hlt])
      · exact absurd heq h
      · exact Or.inr (by simp [lexLe, Ne.symm h, hgt])

theorem lexLe_trans : ∀ a b c : List Char,
    lexLe a b = true → lexLe b c = true → lexLe a c = true
  | [], _, _ => fun _ _ => rfl
  | _ :: _, [], _ => fun h _ => by cases h
  | _ :: _, _ :: _, [] => fun _ h => by cases h
  | a :: as, b :: bs, c :: cs => fun h1 h2 => by
    by_cases hab : a = b <;> by_cases hbc : b = c
    · subst hab; subst hbc
      simp only [lexLe, if_pos rfl] at h1 h2 ⊢
      exact lexLe_trans as bs cs h1 h2
    · subst hab
      simp only [lexLe, if_pos rfl, if_neg hbc] at h2 ⊢
      exact h2
    · subst hbc
      simp only [lexLe, if_neg hab] at h1 ⊢
      exact h1
    · simp only [lexLe, if_neg hab, if_neg hbc, decide_eq_true_eq] at h1 h2
      have hac : a < c := lt_trans h1 h2
      have : a ≠ c := ne_of_lt hac
      simp [lexLe, this, hac]

theorem mem_sortedDedup (l : List String) (u : String) :
    u ∈ sortedDedup l ↔ u ∈ l := by
  unfold sortedDedup
  rw [(List.perm_insertionSort strLe l.dedup).mem_iff, List.mem_dedup]

theorem nodup_sortedDedup (l : List String) : (sortedDedup l).Nodup := by
  unfold sortedDedup
  exact (List.perm_insertionSort strLe l.dedup).nodup_iff.mpr (List.nodup_dedup l)

theorem sorted_sortedDedup (l : List String) : List.Sorted strLe (sortedDedup l) := by
  haveI : IsTotal String strLe := ⟨fun a b => lexLe_total a.data b.data⟩
  haveI : IsTrans String strLe := ⟨fun a b c => lexLe_trans a.data b.data c.data⟩
  exact List.sorted_insertionSort strLe l.dedup

/-- Claim C7 — valid URLs are deduplicated by exact string match and processed
in lexicographic order: the URL list is duplicate-free, sorted, contains a
URL exactly when some rule validly cites it, and the report carries exactly
one line per listed URL (between the diagnostics block and the summary). -/
theorem claim_C7 (rules : List Rule) (check : String → Nat → UrlResult)
    (retries : Nat) (retry_delay : ℚ) :
    (load_unique_urls rules).1.Nodup ∧
    List.Sorted strLe (load_unique_urls rules).1 ∧
    (∀ u, u ∈ (load_unique_urls rules).1 ↔
      ∃ r ∈ rules, ∃ e ∈ r.source_urls, validOfEntry e = some u) ∧
    (main_run rules check retries retry_delay).lines =
      (load_unique_urls rules).2.map (fun e => "BROKEN [-] parse " ++ e) ++
        (load_unique_urls rules).1.map (fun u =>
          reportLine u (check_with_retries (check u) retries retry_delay).result
            (check_with_retries (check u) retries retry_delay).attempt) ++
        ["Summary: checked=" ++
            toString ((load_unique_urls rules).1.length + (load_unique_urls rules).2.length) ++
          " ok=" ++
            toString (((load_unique_urls rules).1.filter fun u =>
              (check_with_retries (check u) retries retry_delay).result.ok).length) ++
          " broken=" ++
            toString ((load_unique_urls rules).2.length +
              ((load_unique_urls rules).1.filter fun u =>
                !(check_with_retries (check u) retries retry_delay).result.ok).length)] := by
  refine ⟨nodup_sortedDedup _, sorted_sortedDedup _, ?_, ?_⟩
  · intro u
    show u ∈ sortedDedup (rules.flatMap fun r => r.source_urls.filterMap validOfEntry) ↔ _
    rw [mem_sortedDedup]
    simp [List.mem_flatMap, List.mem_filterMap]
  · unfold main_run
    simp only [List.map_map, List.filter_map, List.length_map]
    rfl

/-- Claim C10 — invalid-entry diagnostics are deduplicated as exact strings and
reported in sorted order: the diagnostics list is duplicate-free, sorted,
contains a diagnostic exactly when some rule's entry produces it, each
diagnostic yields exactly one `BROKEN` report line at the head of the report,
and each contributes exactly one to the checked and broken counts of the
summary line. -/
theorem claim_C10 (rules : List Rule) (check : String → Nat → UrlResult)
    (retries : Nat) (retry_delay : ℚ) :
    (load_unique_urls rules).2.Nodup ∧
    List.Sorted strLe (load_unique_urls rules).2 ∧
    (∀ dg, dg ∈ (load_unique_urls rules).2 ↔
      ∃ r ∈ rules, ∃ e ∈ r.source_urls, diagOfEntry (ruleId r) e = some dg) ∧
    (main_run rules check retries retry_delay).lines.take
        (load_unique_urls rules).2.length =
      (load_unique_urls rules).2.map (fun e => "BROKEN [-] parse " ++ e) ∧
    (main_run rules check retries retry_delay).lines.getLast? =
      some ("Summary: checked=" ++
          toString ((load_unique_urls rules).1.length + (load_unique_urls rules).2.length) ++
        " ok=" ++
          toString (((load_unique_urls rules).1.filter fun u =>
            (check_with_retries (check u) retries retry_delay).result.ok).length) ++
        " broken=" ++
          toString ((load_unique_urls rules).2.length +
            ((load_unique_urls rules).1.filter fun u =>
              !(check_with_retries (check u) retries retry_delay).result.ok).length)) := by
  refine ⟨nodup_sortedDedup _, sorted_sortedDedup _, ?_, ?_, ?_⟩
  · intro dg
    show dg ∈ sortedDedup
        (rules.flatMap fun r => r.source_urls.filterMap (diagOfEntry (ruleId r))) ↔ _
    rw [mem_sortedDedup]
    simp [List.mem_flatMap, List.mem_filterMap]
  · unfold main_run
    simp only [List.append_assoc]
    rw [List.take_append_of_le_length (by simp)]
    simp [List.take_of_length_le]
  · unfold main_run
    simp only [List.map_map, List.filter_map, List.length_map, ← List.append_assoc,
      List.getLast?_concat]
    rfl

/-- Claim C8 — the report ends with the summary line
`Summary: checked=<n> ok=<n> broken=<n>` where `checked` counts unique valid
URLs plus invalid-entry diagnostics, and the exit code is 0 exactly when
nothing is invalid and every URL verdict is successful, and 1 otherwise. -/
theorem claim_C8 (rules : List Rule) (check : String → Nat → UrlResult)
    (retries : Nat) (retry_delay : ℚ) :
    ((main_run rules check retries retry_delay).lines.getLast? =
      some ("Summary: checked=" ++
          toString ((load_unique_urls rules).1.length + (load_unique_urls rules).2.length) ++
        " ok=" ++
          toString (((load_unique_urls rules).1.filter fun u =>
            (check_with_retries (check u) retries retry_delay).result.ok).length) ++
        " broken=" ++
          toString ((load_unique_urls rules).2.length +
            ((load_unique_urls rules).1.filter fun u =>
              !(check_with_retries (check u) retries retry_delay).result.ok).length))) ∧
    ((main_run rules check retries retry_delay).exitCode = 0 ↔
      (load_unique_urls rules).2 = [] ∧
        ∀ u ∈ (load_unique_urls rules).1,
          (check_with_retries (check u) retries retry_delay).result.ok = true) ∧
    ((main_run rules check retries retry_delay).exitCode = 0 ∨
      (main_run rules check retries retry_delay).exitCode = 1) := by
  refine ⟨?_, ?_, ?_⟩
  · unfold main_run
    simp only [List.map_map, List.filter_map, List.length_map, ← List.append_assoc,
      List.getLast?_concat]
    rfl
  · simp only [main_run, List.filter_map, List.length_map, Function.comp_def]
    constructor
    · intro h
      by_cases hz : (load_unique_urls rules).2.length +
          ((load_unique_urls rules).1.filter fun u =>
            !(check_with_retries (check u) retries retry_delay).result.ok).length = 0
      · have hinv : (load_unique_urls rules).2 = [] :=
          List.length_eq_zero.mp (by omega)
        have hfil : ((load_unique_urls rules).1.filter fun u =>
            !(check_with_retries (check u) retries retry_delay).result.ok) = [] :=
          List.length_eq_zero.mp (by omega)
        refine ⟨hinv, fun u hu => ?_⟩
        have := List.filter_eq_nil_iff.mp hfil u hu
        simpa using this
      · rw [if_neg hz] at h
        cases h
    · rintro ⟨hinv, hok⟩
      have hfil : ((load_unique_urls rules).1.filter fun u =>
          !(check_with_retries (check u) retries retry_delay).result.ok) = [] := by
        rw [List.filter_eq_nil_iff]
        intro u hu
        simp [hok u hu]
      rw [hinv, hfil]
      simp
  · simp only [main_run]
    split <;> simp

/-- Claim C6 — an evidence entry that is not a string, trims to empty, has a
scheme other than http/https, or has an empty host contributes no URL to the
probe set, is recorded as a diagnostic tagged with the owning rule
identifier, and only listed URLs are ever handed to the network layer; in
particular the dataset entry `ftp://example.com/x` is classified invalid and
never probed. -/
theorem claim_C6 (rules : List Rule) (r : Rule) (e : Entry)
    (hr : r ∈ rules) (he : e ∈ r.source_urls) (hbad : badEntry e = true) :
    validOfEntry e = none ∧
    (∃ msg, diagOfEntry (ruleId r) e = some (ruleId r ++ msg) ∧
      (ruleId r ++ msg) ∈ (load_unique_urls rules).2) ∧
    (∀ check retries retry_delay,
      (main_run rules check retries retry_delay).probed = (load_unique_urls rules).1) ∧
    load_unique_urls ftpRules = ([], ["rule-7: invalid URL 'ftp://example.com/x'"]) ∧
    (∀ check retries retry_delay,
      (main_run ftpRules check retries retry_delay).probed = []) := by
  have hnone : validOfEntry e = none := by
    cases e with
    | nonstr => rfl
    | str s =>
      unfold badEntry at hbad
      unfold validOfEntry
      by_cases hemp : (pyStrip s.data).isEmpty
      · simp only [String.mk]
        simp_all [String.isEmpty]
      · simp only [hemp, Bool.false_eq_true, if_false] at hbad
        have hgood : goodUrl (String.mk (pyStrip s.data)) = false := by
          unfold goodUrl
          revert hbad
          generalize (urlSchemeNetloc (String.mk (pyStrip s.data)).data) = p
          cases hp1 : (p.1 = "http".data || p.1 = "https".data) <;>
            cases hp2 : p.2.isEmpty <;> simp_all
        simp only [String.mk] at hgood ⊢
        simp_all [String.isEmpty]
  refine ⟨hnone, ?_, ?_, ?_, ?_⟩
  · have hd : ∃ msg, diagOfEntry (ruleId r) e = some (ruleId r ++ msg) := by
      cases e with
      | nonstr => exact ⟨": non-string URL entry", rfl⟩
      | str s =>
        unfold diagOfEntry
        by_cases hemp : (String.mk (pyStrip s.data)).data.isEmpty
        · exact ⟨": empty URL entry", by simp [hemp]⟩
        · have hgood : goodUrl (String.mk (pyStrip s.data)) = false := by
            have := hnone
            unfold validOfEntry at this
            simp only [hemp, Bool.false_eq_true, if_false] at this
            revert this
            cases goodUrl (String.mk (pyStrip s.data)) <;> simp
          exact ⟨": invalid URL '" ++ String.mk (pyStrip s.data) ++ "'",
            by simp [hemp, hgood, String.append_assoc]⟩
    obtain ⟨msg, hmsg⟩ := hd
    refine ⟨msg, hmsg, ?_⟩
    show _ ∈ sortedDedup
        (rules.flatMap fun r => r.source_urls.filterMap (diagOfEntry (ruleId r)))
    rw [mem_sortedDedup]
    rw [List.mem_flatMap]
    exact ⟨r, hr, List.mem_filterMap.mpr ⟨e, he, hmsg⟩⟩
  · intro check retries retry_delay
    rfl
  · decide
  · intro check retries retry_delay
    rfl

/-- Witness for C6 at the concrete `ftp://example.com/x` dataset. -/
theorem claim_C6_witness :
    validOfEntry (Entry.str "ftp://example.com/x") = none ∧
    (∃ msg, diagOfEntry "rule-7" (Entry.str "ftp://example.com/x") =
        some ("rule-7" ++ msg) ∧
      ("rule-7" ++ msg) ∈ (load_unique_urls ftpRules).2) ∧
    load_unique_urls ftpRules = ([], ["rule-7: invalid URL 'ftp://example.com/x'"]) := by
  have h := claim_C6 ftpRules ⟨some "rule-7", [.str "ftp://example.com/x"]⟩
    (Entry.str "ftp://example.com/x") (by decide) (by decide) (by decide)
  exact ⟨h.1, h.2.1, h.2.2.2.1⟩

theorem eatLit_eq_some (pat l r : List Char) :
    eatLit pat l = some r ↔ l = pat ++ r := by
  unfold eatLit
  by_cases h : List.isPrefixOf pat l = true
  · rw [if_pos h]
    obtain ⟨t, rfl⟩ := List.isPrefixOf_iff_prefix.mp h
    rw [List.drop_left]
    simp only [Option.some.injEq]
    constructor
    · rintro rfl; rfl
    · intro he
      have h2 := congrArg (fun x => List.drop pat.length x) he
      simpa [List.drop_left] using h2
  · rw [if_neg h]
    constructor
    · intro hc; cases hc
    · rintro rfl
      exact absurd (List.isPrefixOf_iff_prefix.mpr (List.prefix_append pat r)) h

theorem dropWhile_append_all {p : Char → Bool} {l1 : List Char} (l2 : List Char)
    (h : ∀ c ∈ l1, p c = true) :
    List.dropWhile p (l1 ++ l2) = List.dropWhile p l2 := by
  rw [List.dropWhile_append]
  have h0 : List.dropWhile p l1 = [] := List.dropWhile_eq_nil_iff.mpr h
  simp [h0]

theorem dropWhile_append_nonempty {p : Char → Bool} {l1 : List Char} (l2 : List Char)
    (h : (List.dropWhile p l1).isEmpty = false) :
    List.dropWhile p (l1 ++ l2) = List.dropWhile p l1 ++ l2 := by
  rw [List.dropWhile_append, h]
  rfl

theorem eatWs1_eq_some (r r2 : List Char) (h : eatWs1 r = some r2) :
    ∃ c rest, r = c :: rest ∧ wsChar c = true ∧ r2 = rest.dropWhile wsChar := by
  cases r with
  | nil => cases h
  | cons c rest =>
    simp only [eatWs1] at h
    by_cases hc : wsChar c = true
    · rw [if_pos hc] at h
      exact ⟨c, rest, rfl, hc, (Option.some.injEq _ _).mp h.symm⟩
    · rw [if_neg hc] at h
      cases h

theorem splitFirst_eq_some (pat : List Char) :
    ∀ s pre post, splitFirst pat s = some (pre, post) → s = pre ++ (pat ++ post)
  | [], pre, post => by
    intro h
    unfold splitFirst at h
    by_cases hp : pat.isEmpty = true
    · rw [if_pos hp] at h
      simp only [Option.some.injEq, Prod.mk.injEq] at h
      obtain ⟨rfl, rfl⟩ := h
      have hp2 : pat = [] := by
        cases pat
        · rfl
        · cases hp
      simp [hp2]
    · rw [if_neg hp] at h
      cases h
  | c :: rest, pre, post => by
    intro h
    unfold splitFirst at h
    by_cases hp : List.isPrefixOf pat (c :: rest) = true
    · rw [if_pos hp] at h
      simp only [Option.some.injEq, Prod.mk.injEq] at h
      obtain ⟨rfl, rfl⟩ := h
      obtain ⟨t, ht⟩ := List.isPrefixOf_iff_prefix.mp hp
      simp only [List.nil_append]
      rw [← ht, List.drop_left]
    · rw [if_neg hp] at h
      cases hsp : splitFirst pat rest with
      | none => rw [hsp] at h; cases h
      | some pq =>
        rw [hsp] at h
        obtain ⟨p2, q⟩ := pq
        simp only [Option.some.injEq, Prod.mk.injEq] at h
        obtain ⟨rfl, rfl⟩ := h
        have := splitFirst_eq_some pat rest p2 q hsp
        rw [this]
        rfl

theorem splitFirst_closeH1 : ∀ pre post : List Char, '<' ∉ pre →
    splitFirst closeH1 (pre ++ (closeH1 ++ post)) = some (pre, post)
  | [], post => by
    intro _
    have hne : closeH1 ++ post = '<' :: ("/h1>".data ++ post) := rfl
    rw [List.nil_append, hne]
    unfold splitFirst
    have hp : List.isPrefixOf closeH1 ('<' :: ("/h1>".data ++ post)) = true := by
      rw [← hne]
      exact List.isPrefixOf_iff_prefix.mpr (List.prefix_append closeH1 post)
    rw [if_pos hp, ← hne, List.drop_left]
  | c :: pre2, post => by
    intro hmem
    have hc : ¬c = '<' := fun h => hmem (by rw [← h]; exact List.mem_cons_self c pre2)
    have hrec := splitFirst_closeH1 pre2 post (fun h => hmem (List.mem_cons_of_mem c h))
    show splitFirst closeH1 (c :: (pre2 ++ (closeH1 ++ post))) = some (c :: pre2, post)
    unfold splitFirst
    have hp : ¬List.isPrefixOf closeH1 (c :: (pre2 ++ (closeH1 ++ post))) = true := by
      have hcl : closeH1 = '<' :: "/h1>".data := rfl
      rw [hcl]
      simp only [List.isPrefixOf, Bool.and_eq_true, beq_iff_eq]
      rintro ⟨h1, -⟩
      exact hc h1.symm
    rw [if_neg hp, hrec]

theorem wsChar_ne_lt {c : Char} (h : wsChar c = true) : ¬c = '<' := by
  intro he
  rw [he] at h
  cases h

theorem phraseTail_to_elem (words : List (List Char)) :
    ∀ r, (∀ w ∈ words, (∃ c t, w = c :: t ∧ wsChar c = false) ∧ '<' ∉ w) →
      phraseTail (fun t => List.isPrefixOf closeH1 t) words r = true →
      ∃ pre post, r = pre ++ (closeH1 ++ post) ∧
        phraseTail List.isEmpty words pre = true ∧ '<' ∉ pre := by
  induction words with
  | nil =>
    intro r _ h
    unfold phraseTail at h
    obtain ⟨post, hpost⟩ := List.isPrefixOf_iff_prefix.mp h
    refine ⟨r.takeWhile wsChar, post, ?_, ?_, ?_⟩
    · conv_lhs => rw [← List.takeWhile_append_dropWhile wsChar r]
      rw [← hpost]
    · unfold phraseTail
      have h0 : List.dropWhile wsChar (r.takeWhile wsChar) = [] :=
        List.dropWhile_eq_nil_iff.mpr fun x hx => List.mem_takeWhile_imp hx
      simp [h0]
    · intro hmem
      exact wsChar_ne_lt (List.mem_takeWhile_imp hmem) rfl
  | cons w ws2 ih =>
    intro r hw h
    cases heat : eatWs1 r with
    | none =>
      simp only [phraseTail, heat] at h
      exact absurd h (by decide)
    | some r2 =>
      cases heatl : eatLit w r2 with
      | none =>
        simp only [phraseTail, heat, heatl] at h
        exact absurd h (by decide)
      | some r3 =>
        simp only [phraseTail, heat, heatl] at h
        obtain ⟨pre3, post, hr3, htail, hfree⟩ :=
          ih r3 (fun v hv => hw v (List.mem_cons_of_mem w hv)) h
        obtain ⟨c, rest, rfl, hc, hr2⟩ := eatWs1_eq_some r r2 heat
        have hr2w : r2 = w ++ r3 := (eatLit_eq_some w r2 r3).mp heatl
        obtain ⟨⟨cw, tw, hwc, hwns⟩, hwfree⟩ := hw w (List.mem_cons_self w ws2)
        refine ⟨c :: (rest.takeWhile wsChar ++ (w ++ pre3)), post, ?_, ?_, ?_⟩
        · have hrest : rest = rest.takeWhile wsChar ++ (w ++ (pre3 ++ (closeH1 ++ post))) := by
            conv_lhs => rw [← List.takeWhile_append_dropWhile wsChar rest]
            rw [← hr2, hr2w, hr3]
          rw [List.cons_append]
          conv_lhs => rw [hrest]
          simp [List.append_assoc]
        · have he : eatWs1 (c :: (rest.takeWhile wsChar ++ (w ++ pre3))) =
              some ((rest.takeWhile wsChar ++ (w ++ pre3)).dropWhile wsChar) := by
            simp only [eatWs1, if_pos hc]
          have hd : (rest.takeWhile wsChar ++ (w ++ pre3)).dropWhile wsChar = w ++ pre3 := by
            rw [dropWhile_append_all _ fun x hx => List.mem_takeWhile_imp hx]
            rw [hwc]
            rw [List.cons_append]
            rw [List.dropWhile_cons_of_neg (by simp [hwns])]
          have hl : eatLit w (w ++ pre3) = some pre3 := (eatLit_eq_some w _ _).mpr rfl
          simp only [phraseTail, he, hd, hl]
          exact htail
        · intro hmem
          rcases List.mem_cons.mp hmem with rfl | hmem2
          · exact wsChar_ne_lt hc rfl
          · rcases List.mem_append.mp hmem2 with h1 | h2
            · exact wsChar_ne_lt (List.mem_takeWhile_imp h1) rfl
            · rcases List.mem_append.mp h2 with h3 | h4
              · exact hwfree h3
              · exact hfree h4

theorem phraseTail_of_elem (words : List (List Char)) :
    ∀ pre post, (∀ w ∈ words, ∃ c t, w = c :: t) →
      phraseTail List.isEmpty words pre = true →
      phraseTail (fun t => List.isPrefixOf closeH1 t) words (pre ++ (closeH1 ++ post)) = true := by
  induction words with
  | nil =>
    intro pre post _ h
    unfold phraseTail at h ⊢
    have h0 : List.dropWhile wsChar pre = [] := by
      cases hd : List.dropWhile wsChar pre
      · rfl
      · rw [hd] at h; cases h
    have hall : ∀ c ∈ pre, wsChar c = true := List.dropWhile_eq_nil_iff.mp h0
    rw [dropWhile_append_all _ hall]
    have hcl : closeH1 ++ post = '<' :: ("/h1>".data ++ post) := rfl
    rw [hcl, List.dropWhile_cons_of_neg (by decide), ← hcl]
    exact List.isPrefixOf_iff_prefix.mpr (List.prefix_append closeH1 post)
  | cons w ws2 ih =>
    intro pre post hw h
    cases heat : eatWs1 pre with
    | none =>
      simp only [phraseTail, heat] at h
      exact absurd h (by decide)
    | some r2 =>
      cases heatl : eatLit w r2 with
      | none =>
        simp only [phraseTail, heat, heatl] at h
        exact absurd h (by decide)
      | some r3 =>
        simp only [phraseTail, heat, heatl] at h
        obtain ⟨c, rest, rfl, hc, hr2⟩ := eatWs1_eq_some pre r2 heat
        have hr2w : r2 = w ++ r3 := (eatLit_eq_some w r2 r3).mp heatl
        obtain ⟨cw, tw, hwc⟩ := hw w (List.mem_cons_self w ws2)
        have he : eatWs1 ((c :: rest) ++ (closeH1 ++ post)) =
            some ((rest ++ (closeH1 ++ post)).dropWhile wsChar) := by
          rw [List.cons_append]
          simp only [eatWs1, if_pos hc]
        have hne : (List.dropWhile wsChar rest).isEmpty = false := by
          rw [← hr2, hr2w, hwc]
          rfl
        have hd : (rest ++ (closeH1 ++ post)).dropWhile wsChar =
            w ++ (r3 ++ (closeH1 ++ post)) := by
          rw [dropWhile_append_nonempty _ hne, ← hr2, hr2w, List.append_assoc]
        have hl : eatLit w (w ++ (r3 ++ (closeH1 ++ post))) = some (r3 ++ (closeH1 ++ post)) :=
          (eatLit_eq_some w _ _).mpr rfl
        simp only [phraseTail, he, hd, hl]
        exact ih r3 post (fun v hv => hw v (List.mem_cons_of_mem w hv)) h

theorem phraseAlt_to_elem (w0 : List Char) (words : List (List Char)) (s : List Char)
    (hw0 : (∃ c t, w0 = c :: t ∧ wsChar c = false) ∧ '<' ∉ w0)
    (hw : ∀ w ∈ words, (∃ c t, w = c :: t ∧ wsChar c = false) ∧ '<' ∉ w)
    (h : phraseAlt (fun t => List.isPrefixOf closeH1 t) w0 words s = true) :
    ∃ pre post, s = pre ++ (closeH1 ++ post) ∧
      phraseAlt List.isEmpty w0 words pre = true ∧ '<' ∉ pre := by
  cases heatl : eatLit w0 (s.dropWhile wsChar) with
  | none =>
    simp only [phraseAlt, heatl] at h
    exact absurd h (by decide)
  | some r =>
    simp only [phraseAlt, heatl] at h
    have hr : s.dropWhile wsChar = w0 ++ r := (eatLit_eq_some w0 _ r).mp heatl
    obtain ⟨pre1, post, hr1, htail, hfree⟩ := phraseTail_to_elem words r hw h
    obtain ⟨⟨c0, t0, hw0c, hw0ns⟩, hw0free⟩ := hw0
    refine ⟨s.takeWhile wsChar ++ (w0 ++ pre1), post, ?_, ?_, ?_⟩
    · conv_lhs => rw [← List.takeWhile_append_dropWhile wsChar s]
      rw [hr, hr1]
      simp [List.append_assoc]
    · have hd : (s.takeWhile wsChar ++ (w0 ++ pre1)).dropWhile wsChar = w0 ++ pre1 := by
        rw [dropWhile_append_all _ fun x hx => List.mem_takeWhile_imp hx]
        rw [hw0c, List.cons_append, List.dropWhile_cons_of_neg (by simp [hw0ns])]
      have hl : eatLit w0 (w0 ++ pre1) = some pre1 := (eatLit_eq_some w0 _ _).mpr rfl
      simp only [phraseAlt, hd, hl]
      exact htail
    · intro hmem
      rcases List.mem_append.mp hmem with h1 | h2
      · exact wsChar_ne_lt (List.mem_takeWhile_imp h1) rfl
      · rcases List.mem_append.mp h2 with h3 | h4
        · exact hw0free h3
        · exact hfree h4

theorem phraseAlt_of_elem (w0 : List Char) (words : List (List Char))
    (pre post : List Char) (hw0 : ∃ c t, w0 = c :: t)
    (hw : ∀ w ∈ words, ∃ c t, w = c :: t)
    (h : phraseAlt List.isEmpty w0 words pre = true) :
    phraseAlt (fun t => List.isPrefixOf closeH1 t) w0 words (pre ++ (closeH1 ++ post)) = true := by
  cases heatl : eatLit w0 (pre.dropWhile wsChar) with
  | none =>
    simp only [phraseAlt, heatl] at h
    exact absurd h (by decide)
  | some r =>
    simp only [phraseAlt, heatl] at h
    have hr : pre.dropWhile wsChar = w0 ++ r := (eatLit_eq_some w0 _ r).mp heatl
    obtain ⟨c0, t0, hw0c⟩ := hw0
    have hne : (pre.dropWhile wsChar).isEmpty = false := by
      rw [hr, hw0c]
      rfl
    have hd : (pre ++ (closeH1 ++ post)).dropWhile wsChar = w0 ++ (r ++ (closeH1 ++ post)) := by
      rw [dropWhile_append_nonempty _ hne, hr, List.append_assoc]
    have hl : eatLit w0 (w0 ++ (r ++ (closeH1 ++ post))) = some (r ++ (closeH1 ++ post)) :=
      (eatLit_eq_some w0 _ _).mpr rfl
    simp only [phraseAlt, hd, hl]
    exact phraseTail_of_elem words r post hw h

theorem word_side_404 : (∃ c t, w404 = c :: t ∧ wsChar c = false) ∧ '<' ∉ w404 :=
  ⟨⟨'4', ['0', '4'], rfl, by decide⟩, by decide⟩

theorem word_side_page : (∃ c t, wPage = c :: t ∧ wsChar c = false) ∧ '<' ∉ wPage :=
  ⟨⟨'p', ['a', 'g', 'e'], rfl, by decide⟩, by decide⟩

theorem word_side_not : (∃ c t, wNot = c :: t ∧ wsChar c = false) ∧ '<' ∉ wNot :=
  ⟨⟨'n', ['o', 't'], rfl, by decide⟩, by decide⟩

theorem word_side_found : (∃ c t, wFound = c :: t ∧ wsChar c = false) ∧ '<' ∉ wFound :=
  ⟨⟨'f', ['o', 'u', 'n', 'd'], rfl, by decide⟩, by decide⟩

theorem words_side_nil :
    ∀ w ∈ ([] : List (List Char)), (∃ c t, w = c :: t ∧ wsChar c = false) ∧ '<' ∉ w := by
  intro w hw
  cases hw

theorem words_side_nf :
    ∀ w ∈ [wNot, wFound], (∃ c t, w = c :: t ∧ wsChar c = false) ∧ '<' ∉ w := by
  intro w hw
  rcases List.mem_cons.mp hw with rfl | hw2
  · exact word_side_not
  · rcases List.mem_cons.mp hw2 with rfl | hw3
    · exact word_side_found
    · cases hw3

theorem words_side_f :
    ∀ w ∈ [wFound], (∃ c t, w = c :: t ∧ wsChar c = false) ∧ '<' ∉ w := by
  intro w hw
  rcases List.mem_cons.mp hw with rfl | hw2
  · exact word_side_found
  · cases hw2

theorem h1Body_to_elem (s : List Char) (h : h1Body s = true) :
    ∃ pre post, s = pre ++ (closeH1 ++ post) ∧ phraseOnly pre = true ∧ '<' ∉ pre := by
  unfold h1Body phraseFrom at h
  rcases Bool.or_eq_true_iff.mp h with h1 | h4
  rotate_left
  · obtain ⟨pre, post, hs, hp, hfree⟩ :=
      phraseAlt_to_elem wNot [wFound] s word_side_not words_side_f h4
    exact ⟨pre, post, hs, by unfold phraseOnly phraseFrom; simp [hp], hfree⟩
  rcases Bool.or_eq_true_iff.mp h1 with h2 | h3
  rotate_left
  · obtain ⟨pre, post, hs, hp, hfree⟩ :=
      phraseAlt_to_elem wPage [wNot, wFound] s word_side_page words_side_nf h3
    exact ⟨pre, post, hs, by unfold phraseOnly phraseFrom; simp [hp], hfree⟩
  rcases Bool.or_eq_true_iff.mp h2 with h5 | h6
  · obtain ⟨pre, post, hs, hp, hfree⟩ :=
      phraseAlt_to_elem w404 [] s word_side_404 words_side_nil h5
    exact ⟨pre, post, hs, by unfold phraseOnly phraseFrom; simp [hp], hfree⟩
  · obtain ⟨pre, post, hs, hp, hfree⟩ :=
      phraseAlt_to_elem w404 [wNot, wFound] s word_side_404 words_side_nf h6
    exact ⟨pre, post, hs, by unfold phraseOnly phraseFrom; simp [hp], hfree⟩

theorem h1Body_of_elem (content post : List Char) (h : phraseOnly content = true) :
    h1Body (content ++ (closeH1 ++ post)) = true := by
  unfold phraseOnly phraseFrom at h
  unfold h1Body phraseFrom
  rcases Bool.or_eq_true_iff.mp h with h1 | h4
  rotate_left
  · have := phraseAlt_of_elem wNot [wFound] content post ⟨'n', ['o', 't'], rfl⟩
      (fun w hw => ((words_side_f w hw).1).imp fun c hc => hc.imp fun t ht => ht.1) h4
    simp [this]
  rcases Bool.or_eq_true_iff.mp h1 with h2 | h3
  rotate_left
  · have := phraseAlt_of_elem wPage [wNot, wFound] content post ⟨'p', ['a', 'g', 'e'], rfl⟩
      (fun w hw => ((words_side_nf w hw).1).imp fun c hc => hc.imp fun t ht => ht.1) h3
    simp [this]
  rcases Bool.or_eq_true_iff.mp h2 with h5 | h6
  · have := phraseAlt_of_elem w404 [] content post ⟨'4', ['0', '4'], rfl⟩
      (fun w hw => by cases hw) h5
    simp [this]
  · have := phraseAlt_of_elem w404 [wNot, wFound] content post ⟨'4', ['0', '4'], rfl⟩
      (fun w hw => ((words_side_nf w hw).1).imp fun c hc => hc.imp fun t ht => ht.1) h6
    simp [this]

theorem h1Body_eq_elem (s : List Char) :
    h1Body s = (match splitFirst closeH1 s with
      | some (content, _) => phraseOnly content
      | none => false) := by
  cases hsp : splitFirst closeH1 s with
  | none =>
    cases hb : h1Body s with
    | false => rfl
    | true =>
      obtain ⟨pre, post, rfl, _, hfree⟩ := h1Body_to_elem s hb
      rw [splitFirst_closeH1 pre post hfree] at hsp
      cases hsp
  | some cp =>
    obtain ⟨content, post⟩ := cp
    have hs := splitFirst_eq_some closeH1 s content post hsp
    show h1Body s = phraseOnly content
    cases hp : phraseOnly content with
    | true =>
      rw [hs]
      exact h1Body_of_elem content post hp
    | false =>
      cases hb : h1Body s with
      | false => rfl
      | true =>
        obtain ⟨pre, post2, heq, hp2, hfree⟩ := h1Body_to_elem s hb
        have hsp2 : splitFirst closeH1 s = some (pre, post2) := by
          rw [heq]
          exact splitFirst_closeH1 pre post2 hfree
        rw [hsp] at hsp2
        simp only [Option.some.injEq, Prod.mk.injEq] at hsp2
        rw [hsp2.1] at hp
        rw [hp] at hp2
        exact absurd hp2 (by decide)

theorem h1Search_eq_h1ElemFires : ∀ l, h1Search l = h1ElemFires l
  | [] => rfl
  | c :: rest => by
    unfold h1Search h1ElemFires
    rw [h1Search_eq_h1ElemFires rest]
    congr 1
    cases hot : openTagAt "<h1".data (c :: rest) with
    | none => rfl
    | some s => exact h1Body_eq_elem s

/-- Claim C4 counterexample — the claim's rule 3 strips embedded tags from the
`<h1>` text before the exact-match comparison, but `NOT_FOUND_H1_RE` admits
no tags inside the element: on `<h1><b>404</b></h1>` the claimed heuristic
fires while the script's heuristic does not. -/
theorem claim_C4_counterexample :
    claimNotFound specH1TagStrip ceHtml = some "HTML h1 indicates missing page" ∧
    not_found_heuristic ceHtml = none := by
  constructor
  · decide
  · decide

/-- Claim C4, amended — the soft-404 heuristic fires exactly according to the
three ordered case-insensitive rules: (1) a title containing both "404" and
"not found", (2) else a title containing "page not found" (title text taken
with embedded tags stripped and whitespace collapsed), (3) else an `<h1>`
element whose inner content — with no embedded tags — is exactly one of
"404", "404 not found", "page not found", "not found" up to surrounding and
inter-word whitespace; otherwise it does not fire. -/
theorem claim_C4 (html : String) :
    not_found_heuristic html = claimNotFound h1ElemFires html := by
  unfold not_found_heuristic claimNotFound
  by_cases h : html.data.isEmpty = true
  · rw [if_pos h]
    have hd : html.data = [] := by
      cases hx : html.data
      · rfl
      · rw [hx] at h; cases h
    rw [hd]
    rfl
  · rw [if_neg h]
    cases ht : titleSearch (html.data.map Char.toLower) with
    | none =>
      simp only [ht, h1Search_eq_h1ElemFires]
    | some content =>
      simp only [ht]
      by_cases hA : (containsSub "404".data (normalize_spaces (tagSub content)) &&
          containsSub "not found".data (normalize_spaces (tagSub content))) = true
      · simp [hA]
      · by_cases hB : containsSub "page not found".data
            (normalize_spaces (tagSub content)) = true
        · simp [hA, hB]
        · simp [hA, hB, h1Search_eq_h1ElemFires]
